import Mathlib

/-!
Shallow embedding of the Google-Keep-Takeout import pipeline
(`keep-parser` module, plus the record mapping of `parseAndSaveNotes`
from the service layer) and proofs checking the specification's claims
against it.

JavaScript-level conventions captured by the model:
  * JSON values are modelled by `JsonVal` (numbers restricted to integers).
  * `undefined` and `null` are conflated into `JsonVal.null`; in every code
    path of this program the two are indistinguishable (both are falsy,
    both fail `=== true`, and neither reaches `new Date`).
  * `JSON.parse` and the cheerio HTML queries are external library calls;
    they are modelled at the interface boundary by `JsonLdBlock` and
    `HtmlDoc` (the script payload's parse outcome and the text of the
    queried elements).
  * `Date` parsing of strings is external; definitions take an arbitrary
    `dp : String → Option Int` giving the parsed millisecond timestamp of
    a string, `none` meaning an Invalid Date.
  * a thrown JavaScript `TypeError` (calling `.trim()` on a non-string,
    or reading a property of `null`) is modelled by `Except.error ()`.
-/

/-- Model of a JSON value as produced by `JSON.parse` (numbers restricted
to integers; no claim depends on fractional numbers). -/
inductive JsonVal where
  | null : JsonVal
  | bool (b : Bool) : JsonVal
  | num (n : Int) : JsonVal
  | str (s : String) : JsonVal
  | arr (elems : List JsonVal) : JsonVal
  | obj (fields : List (String × JsonVal)) : JsonVal

/-- JavaScript truthiness of a JSON value (`NaN` cannot arise from
`JSON.parse`, so a number is falsy exactly when it is 0). -/
def jsTruthy : JsonVal → Bool
  | JsonVal.null => false
  | JsonVal.bool b => b
  | JsonVal.num n => n != 0
  | JsonVal.str s => s != ""
  | JsonVal.arr _ => true
  | JsonVal.obj _ => true

/-- JavaScript `a || b`: the first operand when truthy, else the second. -/
def jsOr (a b : JsonVal) : JsonVal := if jsTruthy a then a else b

/-- Property lookup in an object's field list; a duplicated key resolves to
its last occurrence, as in a JavaScript object built by `JSON.parse`. -/
def lookupLast : List (String × JsonVal) → String → Option JsonVal
  | [], _ => none
  | (k, v) :: rest, key =>
    match lookupLast rest key with
    | some r => some r
    | none => if k = key then some v else none

/-- JavaScript property access `v[key]`: field lookup on objects, and
`undefined` (here `none`) on every other non-null value.  Access on `null`
throws in JavaScript; callers guard it (see `renderItem`). -/
def jsGet : JsonVal → String → Option JsonVal
  | JsonVal.obj fields, key => lookupLast fields key
  | _, _ => none

/-- Property access with the missing-field result (`undefined`) conflated
into `JsonVal.null`. -/
def jsGetD (v : JsonVal) (key : String) : JsonVal :=
  (jsGet v key).getD JsonVal.null

/-- JavaScript `=== true` on a JSON value. -/
def isTrueVal : JsonVal → Bool
  | JsonVal.bool b => b
  | _ => false

mutual

/-- JavaScript `String(v)` / template-literal conversion of a JSON value.
Arrays join their elements with a comma (a `null` element becomes the
empty string); plain objects print as `[object Object]`. -/
def jsToString : JsonVal → String
  | JsonVal.null => "null"
  | JsonVal.bool b => if b then "true" else "false"
  | JsonVal.num n => toString n
  | JsonVal.str s => s
  | JsonVal.arr elems => String.intercalate "," (jsToStringElems elems)
  | JsonVal.obj _ => "[object Object]"

/-- Stringification of array elements for `Array.prototype.toString`. -/
def jsToStringElems : List JsonVal → List String
  | [] => []
  | JsonVal.null :: rest => "" :: jsToStringElems rest
  | v :: rest => jsToString v :: jsToStringElems rest

end

/-- Whitespace recognised by the model of JavaScript `\s`, `trim` and
whitespace collapsing (the ASCII white-space characters). -/
def jsWs (c : Char) : Bool :=
  c = ' ' || c = '\t' || c = '\n' || c = '\r' || c = '\x0b' || c = '\x0c'

/-- Model of `String.prototype.trim` on a character list: drop leading and
trailing whitespace. -/
def jsTrimL (l : List Char) : List Char :=
  ((l.dropWhile jsWs).reverse.dropWhile jsWs).reverse

/-- Model of `String.prototype.trim`. -/
def jsTrimS (s : String) : String := (jsTrimL s.toList).asString

/-- Model of `replace(/\s+/g, ' ')`: each maximal run of whitespace
becomes a single space.  The flag records whether the previous character
was part of a whitespace run. -/
def collapseWsAux : Bool → List Char → List Char
  | _, [] => []
  | prevWs, c :: rest =>
    if jsWs c then
      if prevWs then collapseWsAux true rest
      else ' ' :: collapseWsAux true rest
    else c :: collapseWsAux false rest

/-- Model of `replace(/\s+/g, ' ')` on strings. -/
def collapseWsS (s : String) : String := (collapseWsAux false s.toList).asString

/-- Stage 1 of `formatNoteContent`: `replace(/\r\n/g, '\n')`. -/
def replaceCrLfL : List Char → List Char
  | [] => []
  | '\r' :: '\n' :: rest => '\n' :: replaceCrLfL rest
  | c :: rest => c :: replaceCrLfL rest

/-- Stage 2 of `formatNoteContent`: `replace(/\r/g, '\n')`. -/
def replaceCrL (l : List Char) : List Char :=
  l.map (fun c => if c = '\r' then '\n' else c)

/-- Replacement emitted for a pending run of `p` newlines by
`replace(/\n{3,}/g, '\n\n')`: a run of three or more becomes exactly two. -/
def nlRun (p : Nat) : List Char :=
  if 3 ≤ p then ['\n', '\n'] else List.replicate p '\n'

/-- Stage 3 of `formatNoteContent`: `replace(/\n{3,}/g, '\n\n')`.  The
accumulator counts the newlines of the current run. -/
def collapseNlAux : List Char → Nat → List Char
  | [], pending => nlRun pending
  | c :: rest, pending =>
    if c = '\n' then collapseNlAux rest (pending + 1)
    else nlRun pending ++ c :: collapseNlAux rest 0

/-- The exported content-normalization helper `formatNoteContent`:
CRLF→LF, stray CR→LF, collapse runs of 3-or-more newlines to two, trim. -/
def formatNoteContent (s : String) : String :=
  (jsTrimL (collapseNlAux (replaceCrL (replaceCrLfL s.toList)) 0)).asString

/-- Checks that no three consecutive characters of the list are all
newlines (sliding-window form). -/
def noTripleNl : List Char → Bool
  | [] => true
  | [_] => true
  | [_, _] => true
  | a :: b :: c :: rest =>
    !(a = '\n' && b = '\n' && c = '\n') && noTripleNl (b :: c :: rest)

/-- The core's output record (`ParsedNote` interface); `createdAt` is a
millisecond timestamp when recovered. -/
structure ParsedNote where
  title : String
  content : String
  createdAt : Option Int
deriving DecidableEq, Repr

/-- Outcome of querying the document for
`script[type="application/ld+json"]` and feeding its payload to
`JSON.parse`: no script element (or an empty payload, which is falsy),
a payload `JSON.parse` throws on, or the parsed value. -/
inductive JsonLdBlock where
  | absent : JsonLdBlock
  | malformed : JsonLdBlock
  | parsed (j : JsonVal) : JsonLdBlock

/-- Interface-level model of a loaded cheerio document: the JSON-LD
script outcome and the text of the elements the fallback path queries.
`contentClass` is `some t` when an element with class `content` exists
(`t` its text, possibly empty), `none` when no such element exists. -/
structure HtmlDoc where
  jsonLd : JsonLdBlock
  titleTag : String
  titleClass : String
  contentClass : Option String
  bodyText : String

/-- One archive entry: its path and the outcome of
`entry.getData().toString('utf-8')` followed by `cheerio.load` —
`Except.error ()` when reading or decoding the entry throws. -/
structure ArchiveEntry where
  entryName : String
  data : Except Unit HtmlDoc

/-- JavaScript `a || b` on strings (the title chains of both extractors). -/
def jsOrS (a b : String) : String := if a ≠ "" then a else b

/-- Does a JavaScript `String.prototype.includes` search find `needle`
inside `hay`? -/
def containsSub (needle : List Char) : List Char → Bool
  | [] => needle.isPrefixOf []
  | c :: rest => needle.isPrefixOf (c :: rest) || containsSub needle rest

/-- Lower-cased character list of a string (model of `toLowerCase` for the
ASCII paths the filter exercises). -/
def lowerL (s : String) : List Char := s.toList.map Char.toLower

/-- The Archive Scanner's path filter `isKeepHtmlFile`: the lower-cased
path contains "keep", ends with ".html" and does not contain "label". -/
def isKeepHtmlFile (entryName : String) : Bool :=
  let lowerName := lowerL entryName
  containsSub "keep".toList lowerName &&
  ".html".toList.isSuffixOf lowerName &&
  !containsSub "label".toList lowerName

/-- The candidate sequence: archive entries passing `isKeepHtmlFile`,
in enumeration order. -/
def scanCandidates (entries : List ArchiveEntry) : List ArchiveEntry :=
  entries.filter (fun e => isKeepHtmlFile e.entryName)

/-- Rendering of one checklist item (loop body of the `itemListElement`
branch): text from `text` falling back to `name`, a checkbox from
`checked === true`, rendered `"☑ <text>"` / `"☐ <text>"`.  Reading
`item.text` on a `null` item throws a TypeError. -/
def renderItem (item : JsonVal) : Except Unit String :=
  match item with
  | JsonVal.null => Except.error ()
  | _ =>
    let itemText := jsOr (jsGetD item "text") (jsOr (jsGetD item "name") (JsonVal.str ""))
    let checkbox := if isTrueVal (jsGetD item "checked") then "☑" else "☐"
    Except.ok (checkbox ++ " " ++ jsToString itemText)

/-- The checklist loop: render the items in order, propagating a thrown
TypeError. -/
def renderItems : List JsonVal → Except Unit (List String)
  | [] => Except.ok []
  | item :: rest =>
    match renderItem item with
    | Except.error e => Except.error e
    | Except.ok line =>
      match renderItems rest with
      | Except.error e => Except.error e
      | Except.ok lines => Except.ok (line :: lines)

/-- Content selection of `extractNoteFromJsonLd`: the newline-joined
checklist when `itemListElement` is an array, else `text` falling back to
`description` falling back to the empty string. -/
def jsonLdContent (data : JsonVal) : Except Unit JsonVal :=
  match jsGetD data "itemListElement" with
  | JsonVal.arr items =>
    match renderItems items with
    | Except.error e => Except.error e
    | Except.ok lines => Except.ok (JsonVal.str (String.intercalate "\n" lines))
  | _ => Except.ok (jsOr (jsGetD data "text") (jsOr (jsGetD data "description") (JsonVal.str "")))

/-- Is a computed content value one that line 87 treats as empty — falsy,
or a string that trims to empty?  (A truthy non-string is not "empty":
trimming it throws instead.) -/
def contentEmpty : JsonVal → Bool
  | JsonVal.str s => jsTrimS s == ""
  | v => !(jsTruthy v)

/-- Model of `new Date(v)` for a JSON value `v`, given the external
string-to-date parser `dp`: strings go through `dp`, numbers are
timestamps, booleans coerce to 0/1, `null` to 0, and arrays/objects are
converted to a primitive string first.  `none` is an Invalid Date. -/
def jsNewDate (dp : String → Option Int) : JsonVal → Option Int
  | JsonVal.str s => dp s
  | JsonVal.num n => some n
  | JsonVal.bool b => some (if b then 1 else 0)
  | JsonVal.null => some 0
  | JsonVal.arr elems => dp (jsToString (JsonVal.arr elems))
  | JsonVal.obj _ => dp "[object Object]"

/-- Timestamp recovery of `extractNoteFromJsonLd` (lines 91–103): when
`dateCreated` is truthy its parse result is used (unset when invalid,
without consulting `dateModified`); only when `dateCreated` is falsy is
`dateModified` tried. -/
def recoverTimestamp (dp : String → Option Int) (data : JsonVal) : Option Int :=
  if jsTruthy (jsGetD data "dateCreated") then
    jsNewDate dp (jsGetD data "dateCreated")
  else if jsTruthy (jsGetD data "dateModified") then
    jsNewDate dp (jsGetD data "dateModified")
  else none

/-- The structured-data extractor `extractNoteFromJsonLd`.  The result is
`Except.error ()` when the extraction throws (a checklist item is `null`,
or `.trim()` is called on a truthy non-string content or title);
`Except.ok none` models the `return null` on empty content. -/
def extractNoteFromJsonLd (dp : String → Option Int) (data : JsonVal) :
    Except Unit (Option ParsedNote) :=
  let title := jsOr (jsGetD data "name") (jsOr (jsGetD data "headline") (JsonVal.str ""))
  match jsonLdContent data with
  | Except.error e => Except.error e
  | Except.ok content =>
    if jsTruthy content then
      match content with
      | JsonVal.str s =>
        if jsTrimS s = "" then Except.ok none
        else
          match title with
          | JsonVal.str t =>
            Except.ok (some ⟨jsTrimS t, jsTrimS s, recoverTimestamp dp data⟩)
          | _ => Except.error ()
      | _ => Except.error ()
    else Except.ok none

/-- The markup-scraping fallback extractor `extractNoteFromHtml`. -/
def extractNoteFromHtml (doc : HtmlDoc) : Option ParsedNote :=
  let title := jsOrS doc.titleTag doc.titleClass
  let content0 :=
    match doc.contentClass with
    | some t => t
    | none => doc.bodyText
  let content := jsTrimS (collapseWsS content0)
  if content = "" then none
  else some ⟨jsTrimS title, jsTrimS content, none⟩

/-- The `jsonData[0]` unwrapping step: an array payload is replaced by its
first element (`undefined`, conflated to `null`, when empty). -/
def unwrapArr : JsonVal → JsonVal
  | JsonVal.arr [] => JsonVal.null
  | JsonVal.arr (x :: _) => x
  | j => j

/-- Instrumented `parseKeepHtmlNote`: the per-document dispatcher, paired
with a flag recording whether the fallback `extractNoteFromHtml` was
invoked.  A parsed payload is array-unwrapped; only a truthy working
object reaches the structured extractor, and a thrown TypeError there is
caught and triggers the fallback. -/
def parseKeepHtmlNoteT (dp : String → Option Int) (doc : HtmlDoc) :
    Option ParsedNote × Bool :=
  match doc.jsonLd with
  | JsonLdBlock.parsed j =>
    let j' := unwrapArr j
    if jsTruthy j' then
      match extractNoteFromJsonLd dp j' with
      | Except.ok r => (r, false)
      | Except.error _ => (extractNoteFromHtml doc, true)
    else (extractNoteFromHtml doc, true)
  | JsonLdBlock.malformed => (extractNoteFromHtml doc, true)
  | JsonLdBlock.absent => (extractNoteFromHtml doc, true)

/-- The per-document extractor `parseKeepHtmlNote`. -/
def parseKeepHtmlNote (dp : String → Option Int) (doc : HtmlDoc) : Option ParsedNote :=
  (parseKeepHtmlNoteT dp doc).1

/-- Whether extraction of this document invoked the fallback path. -/
def fallbackAttempted (dp : String → Option Int) (doc : HtmlDoc) : Bool :=
  (parseKeepHtmlNoteT dp doc).2

/-- The per-entry outcome inside the scan loop of `parseGoogleKeepTakeout`:
`some note` exactly when the entry passes the path filter, decodes, parses
to a note and survives the non-empty-trimmed-content check of line 23. -/
def keepNoteOf (dp : String → Option Int) (e : ArchiveEntry) : Option ParsedNote :=
  if isKeepHtmlFile e.entryName then
    match e.data with
    | Except.error _ => none
    | Except.ok doc =>
      match parseKeepHtmlNote dp doc with
      | none => none
      | some note =>
        if 0 < (jsTrimS note.content).length then some note else none
  else none

/-- The pipeline `parseGoogleKeepTakeout`: scan the entries in order,
skip non-candidates and entries whose decoding threw, extract, and push
the notes whose trimmed content is non-empty. -/
def parseGoogleKeepTakeout (dp : String → Option Int) :
    List ArchiveEntry → List ParsedNote
  | [] => []
  | e :: rest =>
    if isKeepHtmlFile e.entryName then
      match e.data with
      | Except.error _ => parseGoogleKeepTakeout dp rest
      | Except.ok doc =>
        match parseKeepHtmlNote dp doc with
        | none => parseGoogleKeepTakeout dp rest
        | some note =>
          if 0 < (jsTrimS note.content).length then
            note :: parseGoogleKeepTakeout dp rest
          else parseGoogleKeepTakeout dp rest
    else parseGoogleKeepTakeout dp rest

/-- Did this entry's read-and-decode step succeed? -/
def entryOk (e : ArchiveEntry) : Bool :=
  match e.data with
  | Except.ok _ => true
  | Except.error _ => false

/-- JavaScript `substring(0, n)`: the first `n` characters. -/
def jsSubstring (s : String) (n : Nat) : String := (s.toList.take n).asString

/-- The persisted record shape built by `parseAndSaveNotes` (service
layer) for one parsed note. -/
structure NoteRecord where
  title : String
  content : String
  userId : String
  createdAt : Int
deriving DecidableEq, Repr

/-- The `notesToCreate` mapping of `parseAndSaveNotes`: title capped at
255 characters with the fixed placeholder for an empty (falsy) title,
content capped at `MAX_CONTENT_LENGTH` (65535), the recovered timestamp
falling back to the current time `now` (a `Date` object is always truthy,
so `note.createdAt || new Date()` is exactly `getD`). -/
def toNoteRecord (now : Int) (userId : String) (note : ParsedNote) : NoteRecord :=
  { title := if note.title ≠ "" then jsSubstring note.title 255 else "Imported Keep Note"
    content := jsSubstring note.content 65535
    userId := userId
    createdAt := note.createdAt.getD now }

/-! Basic facts about the whitespace-trimming model. -/

theorem dropWhile_head_false {p : Char → Bool} :
    ∀ (l : List Char) {c : Char} {rest : List Char},
      l.dropWhile p = c :: rest → p c = false := by
  intro l
  induction l with
  | nil => intro c rest h; cases h
  | cons a as ih =>
    intro c rest h
    rw [List.dropWhile_cons] at h
    by_cases ha : p a = true
    · exact ih (by rwa [if_pos ha] at h)
    · rw [if_neg ha] at h
      cases h
      exact Bool.not_eq_true _ ▸ (by simpa using ha)

theorem dropWhile_idem (p : Char → Bool) (l : List Char) :
    (l.dropWhile p).dropWhile p = l.dropWhile p := by
  cases h : l.dropWhile p with
  | nil => rfl
  | cons c rest =>
    rw [List.dropWhile_cons, dropWhile_head_false l h]
    simp

theorem dropWhile_jsTrimL (l : List Char) :
    (jsTrimL l).dropWhile jsWs = jsTrimL l := by
  unfold jsTrimL
  have hpre : ((l.dropWhile jsWs).reverse.dropWhile jsWs).reverse <+: l.dropWhile jsWs := by
    have h1 : (l.dropWhile jsWs).reverse.dropWhile jsWs <:+ (l.dropWhile jsWs).reverse :=
      List.dropWhile_suffix _
    obtain ⟨t, ht⟩ := h1
    exact ⟨t.reverse, by rw [← List.reverse_append, ht, List.reverse_reverse]⟩
  cases hq : ((l.dropWhile jsWs).reverse.dropWhile jsWs).reverse with
  | nil => rfl
  | cons c rest =>
    rw [hq] at hpre
    obtain ⟨t, ht⟩ := hpre
    have hm : l.dropWhile jsWs = c :: (rest ++ t) := by
      rw [← ht]; rfl
    have hc : jsWs c = false := dropWhile_head_false l hm
    rw [List.dropWhile_cons, hc]
    simp

theorem jsTrimL_idem (l : List Char) : jsTrimL (jsTrimL l) = jsTrimL l := by
  have h1 := dropWhile_jsTrimL l
  show (((jsTrimL l).dropWhile jsWs).reverse.dropWhile jsWs).reverse = jsTrimL l
  rw [h1]
  rw [show (jsTrimL l).reverse = (l.dropWhile jsWs).reverse.dropWhile jsWs from by
    unfold jsTrimL; rw [List.reverse_reverse]]
  rw [dropWhile_idem]
  rfl

theorem toList_asString (l : List Char) : (List.asString l).toList = l := rfl

theorem jsTrimS_idem (s : String) : jsTrimS (jsTrimS s) = jsTrimS s := by
  unfold jsTrimS
  rw [toList_asString, jsTrimL_idem]

theorem all_ws_trim_nil {m : List Char} (h : ∀ c ∈ m, jsWs c = true) : jsTrimL m = [] := by
  unfold jsTrimL
  rw [List.dropWhile_eq_nil_iff.2 h]
  rfl

/-- A string whose trimmed form is non-empty is itself non-empty and is
not whitespace-only. -/
theorem content_not_ws_only {s : String} (h : jsTrimS s ≠ "") :
    s ≠ "" ∧ ¬ ∀ c ∈ s.toList, jsWs c = true := by
  constructor
  · intro e
    subst e
    exact h rfl
  · intro hall
    apply h
    unfold jsTrimS
    rw [all_ws_trim_nil hall]
    rfl

/-! Fixed-point lemmas for the stages of `formatNoteContent`. -/

theorem replaceCrLfL_eq_self : ∀ (l : List Char), '\r' ∉ l → replaceCrLfL l = l
  | [], _ => rfl
  | c :: rest, h => by
    have hc : ¬ c = '\r' := fun e => h (by simp [e])
    have hr : '\r' ∉ rest := fun m => h (List.mem_cons_of_mem c m)
    rw [replaceCrLfL.eq_def]
    split
    · rename_i heq
      simp at heq
    · rename_i heq
      exact absurd (List.cons.inj heq).1 hc
    · rename_i c' rest' heq
      obtain ⟨h1, h2⟩ := List.cons.inj heq
      subst h1; subst h2
      rw [replaceCrLfL_eq_self rest hr]

theorem replaceCrL_eq_self {l : List Char} (h : '\r' ∉ l) : replaceCrL l = l := by
  unfold replaceCrL
  induction l with
  | nil => rfl
  | cons c rest ih =>
    have hc : ¬ c = '\r' := fun e => h (by simp [e])
    have hr : '\r' ∉ rest := fun m => h (List.mem_cons_of_mem c m)
    simp only [List.map_cons, if_neg hc, ih hr]

theorem noTripleNl_cons {c : Char} {l : List Char} (h : noTripleNl (c :: l) = true) :
    noTripleNl l = true := by
  match l with
  | [] => rfl
  | [d] => rfl
  | d :: e :: rest =>
    rw [noTripleNl, Bool.and_eq_true] at h
    exact h.2

theorem noTripleNl_append {l : List Char} :
    ∀ {a : List Char}, noTripleNl (a ++ l) = true → noTripleNl l = true := by
  intro a
  induction a with
  | nil => exact fun h => h
  | cons c a ih => exact fun h => ih (noTripleNl_cons (by simpa using h))

theorem collapseNlAux_eq_self : ∀ (l : List Char) (p : Nat), p ≤ 2 →
    noTripleNl (List.replicate p '\n' ++ l) = true →
    collapseNlAux l p = List.replicate p '\n' ++ l := by
  intro l
  induction l with
  | nil =>
    intro p hp _
    have h3 : ¬ 3 ≤ p := by omega
    simp [collapseNlAux, nlRun, h3]
  | cons c rest ih =>
    intro p hp h
    by_cases hc : c = '\n'
    · subst hc
      have hlist : List.replicate p '\n' ++ '\n' :: rest
          = List.replicate (p + 1) '\n' ++ rest := by
        rw [List.replicate_succ', List.append_assoc]
        rfl
      have hp1 : p + 1 ≤ 2 := by
        by_contra hgt
        have hp2 : p = 2 := by omega
        subst hp2
        rw [hlist] at h
        simp [List.replicate, noTripleNl] at h
      rw [show collapseNlAux ('\n' :: rest) p = collapseNlAux rest (p + 1) from by
        simp [collapseNlAux]]
      rw [hlist]
      rw [hlist] at h
      exact ih (p + 1) hp1 h
    · have h1 : noTripleNl (c :: rest) = true := noTripleNl_append h
      have h2 : noTripleNl rest = true := noTripleNl_cons h1
      have h3 : ¬ 3 ≤ p := by omega
      rw [show collapseNlAux (c :: rest) p = nlRun p ++ c :: collapseNlAux rest 0 from by
        simp [collapseNlAux, hc]]
      rw [ih 0 (by omega) (by simpa using h2)]
      simp [nlRun, h3]


/-! Lemmas about the scan loop and the extractors. -/

theorem parse_cons (dp : String → Option Int) (e : ArchiveEntry) (rest : List ArchiveEntry) :
    parseGoogleKeepTakeout dp (e :: rest) =
      (keepNoteOf dp e).toList ++ parseGoogleKeepTakeout dp rest := by
  simp only [parseGoogleKeepTakeout, keepNoteOf]
  by_cases hk : isKeepHtmlFile e.entryName
  · rw [if_pos hk, if_pos hk]
    cases hd : e.data with
    | error u => simp
    | ok doc =>
      cases hn : parseKeepHtmlNote dp doc with
      | none => simp [hn]
      | some note =>
        by_cases hc : 0 < (jsTrimS note.content).length <;> simp [hn, hc]
  · rw [if_neg hk, if_neg hk]; simp

theorem parse_filterMap (dp : String → Option Int) :
    ∀ entries, parseGoogleKeepTakeout dp entries = entries.filterMap (keepNoteOf dp)
  | [] => rfl
  | e :: rest => by
    rw [parse_cons, List.filterMap_cons, parse_filterMap dp rest]
    cases keepNoteOf dp e <;> rfl

theorem keepNoteOf_error {dp : String → Option Int} {e : ArchiveEntry}
    (h : entryOk e = false) : keepNoteOf dp e = none := by
  unfold entryOk at h
  unfold keepNoteOf
  by_cases hk : isKeepHtmlFile e.entryName
  · rw [if_pos hk]
    cases hd : e.data with
    | ok doc => rw [hd] at h; simp at h
    | error u => rfl
  · rw [if_neg hk]

theorem parse_filter_entryOk (dp : String → Option Int) :
    ∀ entries, parseGoogleKeepTakeout dp entries =
      parseGoogleKeepTakeout dp (entries.filter entryOk)
  | [] => rfl
  | e :: rest => by
    by_cases h : entryOk e = true
    · rw [List.filter_cons_of_pos h, parse_cons, parse_cons,
        parse_filter_entryOk dp rest]
    · have h' : entryOk e = false := by
        cases he : entryOk e
        · rfl
        · exact absurd he h
      rw [List.filter_cons_of_neg (by simp [h']), parse_cons, keepNoteOf_error h',
        parse_filter_entryOk dp rest]
      rfl

theorem keepNoteOf_trim {dp : String → Option Int} {e : ArchiveEntry} {note : ParsedNote}
    (h : keepNoteOf dp e = some note) : jsTrimS note.content ≠ "" := by
  unfold keepNoteOf at h
  split at h
  · cases hd : e.data with
    | error u => rw [hd] at h; simp at h
    | ok doc =>
      rw [hd] at h
      replace h : (match parseKeepHtmlNote dp doc with
        | none => none
        | some note =>
          if 0 < (jsTrimS note.content).length then some note else none) = some note := h
      cases hn : parseKeepHtmlNote dp doc with
      | none => rw [hn] at h; simp at h
      | some note' =>
        rw [hn] at h
        replace h : (if 0 < (jsTrimS note'.content).length then some note' else none)
            = some note := h
        split at h
        · rename_i hlen
          cases Option.some.inj h
          intro hemp
          rw [hemp] at hlen
          simp at hlen
        · simp at h
  · simp at h


/-- Shape of a successful structured-data extraction: the note carries a
trimmed title, the trimmed content string that passed the emptiness check,
and the `recoverTimestamp` value. -/
theorem extract_ok_some {dp : String → Option Int} {data : JsonVal} {note : ParsedNote}
    (h : extractNoteFromJsonLd dp data = Except.ok (some note)) :
    ∃ t s, note = ⟨jsTrimS t, jsTrimS s, recoverTimestamp dp data⟩ ∧
      jsonLdContent data = Except.ok (JsonVal.str s) ∧ jsTrimS s ≠ "" := by
  cases hc : jsonLdContent data with
  | error e =>
    simp only [extractNoteFromJsonLd, hc] at h
    exact Except.noConfusion h
  | ok content =>
    simp only [extractNoteFromJsonLd, hc] at h
    split at h
    · split at h
      · rename_i x s htr
        split at h
        · exact Option.noConfusion (Except.ok.inj h)
        · rename_i hne
          split at h
          · rename_i t heqt
            exact ⟨t, s, (Option.some.inj (Except.ok.inj h)).symm, rfl, hne⟩
          · exact Except.noConfusion h
      · exact Except.noConfusion h
    · exact Option.noConfusion (Except.ok.inj h)

theorem extractNoteFromHtml_content {doc : HtmlDoc} {note : ParsedNote}
    (h : extractNoteFromHtml doc = some note) : jsTrimS note.content ≠ "" := by
  simp only [extractNoteFromHtml] at h
  split at h
  · exact Option.noConfusion h
  · rename_i hne
    cases Option.some.inj h
    dsimp only
    rw [jsTrimS_idem, jsTrimS_idem]
    exact hne

theorem contentEmpty_ok_none {dp : String → Option Int} {data : JsonVal} {c : JsonVal}
    (hc : jsonLdContent data = Except.ok c) (he : contentEmpty c = true) :
    extractNoteFromJsonLd dp data = Except.ok none := by
  simp only [extractNoteFromJsonLd, hc]
  cases c with
  | str s =>
    have hs : jsTrimS s = "" := by simpa [contentEmpty] using he
    by_cases ht : jsTruthy (JsonVal.str s) = true
    · rw [if_pos ht]
      simp [hs]
    · rw [if_neg ht]
  | null => simp [jsTruthy]
  | bool b =>
    have hb : b = false := by simpa [contentEmpty, jsTruthy] using he
    subst hb
    simp [jsTruthy]
  | num n =>
    have hn : n = 0 := by simpa [contentEmpty, jsTruthy] using he
    subst hn
    simp [jsTruthy]
  | arr elems => exact absurd he (by simp [contentEmpty, jsTruthy])
  | obj fields => exact absurd he (by simp [contentEmpty, jsTruthy])

theorem renderItem_ok {item : JsonVal} {line : String}
    (h : renderItem item = Except.ok line) :
    line = (if isTrueVal (jsGetD item "checked") then "☑" else "☐") ++ " " ++
      jsToString (jsOr (jsGetD item "text") (jsOr (jsGetD item "name") (JsonVal.str ""))) := by
  cases item with
  | null => exact Except.noConfusion h
  | bool b => exact (Except.ok.inj h).symm
  | num n => exact (Except.ok.inj h).symm
  | str s => exact (Except.ok.inj h).symm
  | arr elems => exact (Except.ok.inj h).symm
  | obj fields => exact (Except.ok.inj h).symm

theorem renderItems_ok : ∀ {items : List JsonVal} {lines : List String},
    renderItems items = Except.ok lines →
    lines.length = items.length ∧
    ∀ (i : Nat) (item : JsonVal), items[i]? = some item →
      lines[i]? = some ((if isTrueVal (jsGetD item "checked") then "☑" else "☐") ++ " " ++
        jsToString (jsOr (jsGetD item "text") (jsOr (jsGetD item "name") (JsonVal.str "")))) := by
  intro items
  induction items with
  | nil =>
    intro lines h
    cases Except.ok.inj h
    refine ⟨rfl, ?_⟩
    intro i item hi
    simp at hi
  | cons item rest ih =>
    intro lines h
    simp only [renderItems] at h
    cases hr1 : renderItem item with
    | error e => rw [hr1] at h; exact Except.noConfusion h
    | ok line =>
      rw [hr1] at h
      replace h : (match renderItems rest with
        | Except.error e => Except.error e
        | Except.ok lines2 => Except.ok (line :: lines2)) = Except.ok lines := h
      cases hr2 : renderItems rest with
      | error e =>
        rw [hr2] at h
        exact Except.noConfusion h
      | ok lines2 =>
        rw [hr2] at h
        replace h : Except.ok (line :: lines2) = Except.ok lines := h
        cases Except.ok.inj h
        obtain ⟨hlen, hget⟩ := ih hr2
        refine ⟨by simp [hlen], ?_⟩
        intro i it hi
        cases i with
        | zero =>
          rw [List.getElem?_cons_zero] at hi
          cases Option.some.inj hi
          rw [List.getElem?_cons_zero]
          exact congrArg some (renderItem_ok hr1)
        | succ n =>
          rw [List.getElem?_cons_succ] at hi
          rw [List.getElem?_cons_succ]
          exact hget n it hi

/-! Characterization of the path filter's substring primitives. -/

theorem containsSub_iff (needle : List Char) :
    ∀ hay : List Char, (containsSub needle hay = true ↔ ∃ a b, a ++ needle ++ b = hay)
  | [] => by
    simp only [containsSub, List.isPrefixOf_iff_prefix]
    constructor
    · intro h
      obtain ⟨t, ht⟩ := h
      cases needle with
      | nil => exact ⟨[], [], rfl⟩
      | cons x xs => simp at ht
    · rintro ⟨a, b, h⟩
      rw [List.append_eq_nil, List.append_eq_nil] at h
      rw [h.1.2]
  | c :: rest => by
    simp only [containsSub, Bool.or_eq_true, List.isPrefixOf_iff_prefix,
      containsSub_iff needle rest]
    constructor
    · rintro (⟨t, ht⟩ | ⟨a, b, hab⟩)
      · exact ⟨[], t, by simpa using ht⟩
      · refine ⟨c :: a, b, ?_⟩
        rw [List.cons_append, List.cons_append, hab]
    · rintro ⟨a, b, hab⟩
      cases a with
      | nil => exact Or.inl ⟨b, by simpa using hab⟩
      | cons x a2 =>
        rw [List.cons_append, List.cons_append] at hab
        obtain ⟨h1, h2⟩ := List.cons.inj hab
        exact Or.inr ⟨a2, b, h2⟩

theorem isKeepHtmlFile_iff (name : String) :
    isKeepHtmlFile name = true ↔
      ((∃ a b, a ++ "keep".toList ++ b = lowerL name) ∧
       (∃ a, a ++ ".html".toList = lowerL name) ∧
       ¬ ∃ a b, a ++ "label".toList ++ b = lowerL name) := by
  unfold isKeepHtmlFile
  simp only [Bool.and_eq_true, Bool.not_eq_true']
  constructor
  · rintro ⟨⟨hk, hs⟩, hl⟩
    refine ⟨(containsSub_iff _ _).1 hk, ?_, ?_⟩
    · obtain ⟨t, ht⟩ := List.isSuffixOf_iff_suffix.1 hs
      exact ⟨t, ht⟩
    · intro hex
      have hb := (containsSub_iff "label".toList (lowerL name)).2 hex
      rw [hl] at hb
      exact Bool.noConfusion hb
  · rintro ⟨hk, ⟨t, ht⟩, hl⟩
    refine ⟨⟨(containsSub_iff _ _).2 hk, ?_⟩, ?_⟩
    · exact List.isSuffixOf_iff_suffix.2 ⟨t, ht⟩
    · cases hc : containsSub "label".toList (lowerL name)
      · rfl
      · exact absurd ((containsSub_iff _ _).1 hc) hl

theorem length_asString (l : List Char) : (List.asString l).length = l.length := rfl

theorem jsSubstring_length_le (s : String) (n : Nat) : (jsSubstring s n).length ≤ n := by
  unfold jsSubstring
  rw [length_asString, List.length_take]
  exact min_le_left _ _

/-! The claims. -/

/-- C3: an archive entry is yielded by the Archive Scanner exactly when,
case-insensitively, its path contains the substring "keep", ends with
".html", and does not contain the substring "label"; violating any one
condition excludes it. -/
theorem c3_candidate_filter (entries : List ArchiveEntry) (e : ArchiveEntry) :
    e ∈ scanCandidates entries ↔
      e ∈ entries ∧
      ((∃ a b, a ++ "keep".toList ++ b = lowerL e.entryName) ∧
       (∃ a, a ++ ".html".toList = lowerL e.entryName) ∧
       ¬ ∃ a b, a ++ "label".toList ++ b = lowerL e.entryName) := by
  unfold scanCandidates
  rw [List.mem_filter, isKeepHtmlFile_iff]

/-- C6: the pipeline's output is the archive's entry sequence filter-mapped
through the per-entry extraction, so the relative order of emitted notes is
the enumeration order restricted to the entries that produced a note, and
scanning distributes over concatenation (no reordering). -/
theorem c6_order_preserved (dp : String → Option Int)
    (entries esa esb : List ArchiveEntry) :
    parseGoogleKeepTakeout dp entries = entries.filterMap (keepNoteOf dp) ∧
    parseGoogleKeepTakeout dp (esa ++ esb) =
      parseGoogleKeepTakeout dp esa ++ parseGoogleKeepTakeout dp esb := by
  refine ⟨parse_filterMap dp entries, ?_⟩
  rw [parse_filterMap dp, parse_filterMap dp, parse_filterMap dp, List.filterMap_append]

/-- C7: an entry whose read-and-decode step throws is skipped on its own:
the scan of any archive containing it equals the scan with it removed, and
in general the pipeline's output equals its output over the non-throwing
entries only. -/
theorem c7_entry_errors_skipped (dp : String → Option Int)
    (esa esb : List ArchiveEntry) (e : ArchiveEntry) (h : entryOk e = false) :
    parseGoogleKeepTakeout dp (esa ++ e :: esb) =
      parseGoogleKeepTakeout dp esa ++ parseGoogleKeepTakeout dp esb ∧
    ∀ entries, parseGoogleKeepTakeout dp entries =
      parseGoogleKeepTakeout dp (entries.filter entryOk) := by
  refine ⟨?_, parse_filter_entryOk dp⟩
  rw [parse_filterMap dp, parse_filterMap dp, parse_filterMap dp,
    List.filterMap_append, List.filterMap_cons, keepNoteOf_error h]

/-- Witness for C7 at a concrete archive: a well-formed entry followed by
an entry whose decoding throws. -/
theorem c7_entry_errors_skipped_witness :
    parseGoogleKeepTakeout (fun _ => none)
        ([⟨"Keep/a.html", Except.ok ⟨JsonLdBlock.absent, "T", "", none, "hi"⟩⟩] ++
          ⟨"Keep/bad.html", Except.error ()⟩ :: []) =
      parseGoogleKeepTakeout (fun _ => none)
        [⟨"Keep/a.html", Except.ok ⟨JsonLdBlock.absent, "T", "", none, "hi"⟩⟩] ++
      parseGoogleKeepTakeout (fun _ => none) ([] : List ArchiveEntry) ∧
    ∀ entries, parseGoogleKeepTakeout (fun _ => none) entries =
      parseGoogleKeepTakeout (fun _ => none) (entries.filter entryOk) :=
  c7_entry_errors_skipped (fun _ => none) _ _ _ rfl

/-- C5: every note in the pipeline's output has non-empty,
non-whitespace-only content, and neither extractor ever returns a note
with empty or whitespace-only content. -/
theorem c5_no_empty_content (dp : String → Option Int) (entries : List ArchiveEntry)
    (note : ParsedNote) (h : note ∈ parseGoogleKeepTakeout dp entries) :
    (note.content ≠ "" ∧ ¬ ∀ c ∈ note.content.toList, jsWs c = true) ∧
    (∀ (data : JsonVal) (n2 : ParsedNote),
      extractNoteFromJsonLd dp data = Except.ok (some n2) →
      n2.content ≠ "" ∧ ¬ ∀ c ∈ n2.content.toList, jsWs c = true) ∧
    (∀ (doc : HtmlDoc) (n3 : ParsedNote), extractNoteFromHtml doc = some n3 →
      n3.content ≠ "" ∧ ¬ ∀ c ∈ n3.content.toList, jsWs c = true) := by
  refine ⟨?_, ?_, ?_⟩
  · rw [parse_filterMap] at h
    obtain ⟨e, _, he⟩ := List.mem_filterMap.1 h
    exact content_not_ws_only (keepNoteOf_trim he)
  · intro data n2 h2
    obtain ⟨t, s, hn, _, hne⟩ := extract_ok_some h2
    refine content_not_ws_only ?_
    rw [hn]
    dsimp only
    rw [jsTrimS_idem]
    exact hne
  · intro doc n3 h3
    exact content_not_ws_only (extractNoteFromHtml_content h3)

/-- Witness for C5 at a concrete archive producing one note. -/
theorem c5_no_empty_content_witness :
    (ParsedNote.mk "T" "hi" none).content ≠ "" ∧
      ¬ ∀ c ∈ (ParsedNote.mk "T" "hi" none).content.toList, jsWs c = true :=
  (c5_no_empty_content (fun _ => none)
    [⟨"Keep/a.html", Except.ok ⟨JsonLdBlock.absent, "T", "", none, "hi"⟩⟩]
    ⟨"T", "hi", none⟩ (by decide)).1

/-- C8: the persisted record built from a parsed note has a title capped
to 255 characters with the fixed placeholder substituted when the title is
absent (empty, i.e. falsy), content capped to 65535 characters, and a
creation timestamp equal to the recovered one, falling back to the current
time when none was recovered. -/
theorem c8_record_shape (now : Int) (userId : String) (note : ParsedNote) :
    (toNoteRecord now userId note).title.length ≤ 255 ∧
    (note.title = "" → (toNoteRecord now userId note).title = "Imported Keep Note") ∧
    (note.title ≠ "" → (toNoteRecord now userId note).title = jsSubstring note.title 255) ∧
    (toNoteRecord now userId note).content = jsSubstring note.content 65535 ∧
    (toNoteRecord now userId note).content.length ≤ 65535 ∧
    (∀ ts, note.createdAt = some ts → (toNoteRecord now userId note).createdAt = ts) ∧
    (note.createdAt = none → (toNoteRecord now userId note).createdAt = now) := by
  refine ⟨?_, ?_, ?_, rfl, jsSubstring_length_le _ _, ?_, ?_⟩
  · dsimp only [toNoteRecord]
    split
    · exact jsSubstring_length_le _ _
    · decide
  · intro h
    dsimp only [toNoteRecord]
    rw [if_neg (fun hh => hh h)]
  · intro h
    dsimp only [toNoteRecord]
    rw [if_pos h]
  · intro ts hts
    dsimp only [toNoteRecord]
    rw [hts]
    rfl
  · intro h
    dsimp only [toNoteRecord]
    rw [h]
    rfl

/-- Witness for C8 at concrete notes: one with an absent title and no
recovered timestamp, one with a title and a timestamp. -/
theorem c8_record_shape_witness :
    (toNoteRecord 0 "u" ⟨"", "c", none⟩).title = "Imported Keep Note" ∧
    (toNoteRecord 0 "u" ⟨"Ti", "c", some 5⟩).title = jsSubstring "Ti" 255 ∧
    (toNoteRecord 0 "u" ⟨"Ti", "c", some 5⟩).createdAt = 5 ∧
    (toNoteRecord 0 "u" ⟨"", "c", none⟩).createdAt = 0 :=
  ⟨(c8_record_shape 0 "u" ⟨"", "c", none⟩).2.1 rfl,
   (c8_record_shape 0 "u" ⟨"Ti", "c", some 5⟩).2.2.1 (by decide),
   (c8_record_shape 0 "u" ⟨"Ti", "c", some 5⟩).2.2.2.2.2.1 5 rfl,
   (c8_record_shape 0 "u" ⟨"", "c", none⟩).2.2.2.2.2.2 rfl⟩

/-- C9: on a string already in the helper's output form — no carriage
returns, no run of three-or-more newlines, no leading or trailing
whitespace — `formatNoteContent` is the identity. -/
theorem c9_format_idempotent (s : String) (h1 : '\r' ∉ s.toList)
    (h2 : noTripleNl s.toList = true) (h3 : jsTrimS s = s) :
    formatNoteContent s = s := by
  unfold formatNoteContent
  rw [replaceCrLfL_eq_self s.toList h1, replaceCrL_eq_self h1,
    collapseNlAux_eq_self s.toList 0 (by omega) (by simpa using h2)]
  simpa [jsTrimS] using h3

/-- Witness for C9 at a concrete normalized string. -/
theorem c9_format_idempotent_witness : formatNoteContent "ab\n\ncd" = "ab\n\ncd" :=
  c9_format_idempotent "ab\n\ncd" (by decide) (by decide) (by decide)

/-- C1 (amended): the fallback path is attempted exactly when no
structured-data block is present, or the block's payload fails to parse as
JSON, or the parsed payload (after unwrapping a leading array) is falsy,
or the structured extraction throws; and whenever the working object is
truthy and its computed content is empty (trimmed), the document yields
no note and the fallback is not attempted. -/
theorem c1_fallback_exactly_when (dp : String → Option Int) (doc : HtmlDoc) :
    (fallbackAttempted dp doc = true ↔
      doc.jsonLd = JsonLdBlock.absent ∨ doc.jsonLd = JsonLdBlock.malformed ∨
      ∃ j, doc.jsonLd = JsonLdBlock.parsed j ∧
        (jsTruthy (unwrapArr j) = false ∨
         extractNoteFromJsonLd dp (unwrapArr j) = Except.error ())) ∧
    (∀ j c, doc.jsonLd = JsonLdBlock.parsed j → jsTruthy (unwrapArr j) = true →
      jsonLdContent (unwrapArr j) = Except.ok c → contentEmpty c = true →
      parseKeepHtmlNote dp doc = none ∧ fallbackAttempted dp doc = false) := by
  constructor
  · unfold fallbackAttempted parseKeepHtmlNoteT
    cases hj : doc.jsonLd with
    | absent => simp [hj]
    | malformed => simp [hj]
    | parsed j =>
      by_cases ht : jsTruthy (unwrapArr j) = true
      · cases hx : extractNoteFromJsonLd dp (unwrapArr j) with
        | ok r => simp [hj, ht, hx]
        | error u => cases u; simp [hj, ht, hx]
      · have ht' : jsTruthy (unwrapArr j) = false := by
          cases h : jsTruthy (unwrapArr j)
          · rfl
          · exact absurd h ht
        simp [hj, ht', ht]
  · intro j c hj htr hc hemp
    have hok : extractNoteFromJsonLd dp (unwrapArr j) = Except.ok none :=
      contentEmpty_ok_none hc hemp
    unfold parseKeepHtmlNote fallbackAttempted parseKeepHtmlNoteT
    rw [hj]
    simp [htr, hok]

/-- Witness for C1 at a concrete document: a truthy working object whose
content is the whitespace-only string " " — extraction yields none and the
fallback is not attempted (even though the document's body text would
scrape successfully). -/
theorem c1_fallback_exactly_when_witness :
    parseKeepHtmlNote (fun _ => none)
        ⟨JsonLdBlock.parsed (JsonVal.obj [("text", JsonVal.str " ")]), "t", "", none, "body"⟩
      = none ∧
    fallbackAttempted (fun _ => none)
        ⟨JsonLdBlock.parsed (JsonVal.obj [("text", JsonVal.str " ")]), "t", "", none, "body"⟩
      = false :=
  (c1_fallback_exactly_when (fun _ => none)
      ⟨JsonLdBlock.parsed (JsonVal.obj [("text", JsonVal.str " ")]), "t", "", none, "body"⟩).2
    (JsonVal.obj [("text", JsonVal.str " ")]) (JsonVal.str " ")
    rfl rfl rfl (by decide)

/-- Counterexample to C1 as stated: a document whose structured-data block
parses as the JSON value `null`.  The payload parses as JSON, yet the
fallback path is attempted (and here even produces a note from the body
text), contradicting "the fallback path is attempted exactly when no
structured-data block is present or the payload fails to parse as JSON". -/
theorem c1_parsed_null_falls_back :
    (HtmlDoc.mk (JsonLdBlock.parsed JsonVal.null) "" "" none "hello").jsonLd
        = JsonLdBlock.parsed JsonVal.null ∧
    fallbackAttempted (fun _ => none)
        ⟨JsonLdBlock.parsed JsonVal.null, "", "", none, "hello"⟩ = true ∧
    parseKeepHtmlNote (fun _ => none)
        ⟨JsonLdBlock.parsed JsonVal.null, "", "", none, "hello"⟩
      = some ⟨"", "hello", none⟩ :=
  ⟨rfl, rfl, by decide⟩

/-- C2 (amended): in the structured-data path the emitted timestamp is the
parse of `dateCreated` whenever that field is present (truthy) — unset if
that parse is invalid, without consulting `dateModified`; `dateModified`
is parsed only when `dateCreated` is absent; when both are absent the
timestamp is unset; and an emitted note's timestamp is exactly
`recoverTimestamp`. -/
theorem c2_timestamp_precedence (dp : String → Option Int) (data : JsonVal)
    (_hd : jsTruthy data = true) :
    (jsTruthy (jsGetD data "dateCreated") = true →
      recoverTimestamp dp data = jsNewDate dp (jsGetD data "dateCreated")) ∧
    (jsTruthy (jsGetD data "dateCreated") = false →
      jsTruthy (jsGetD data "dateModified") = true →
      recoverTimestamp dp data = jsNewDate dp (jsGetD data "dateModified")) ∧
    (jsTruthy (jsGetD data "dateCreated") = false →
      jsTruthy (jsGetD data "dateModified") = false →
      recoverTimestamp dp data = none) ∧
    (∀ note, extractNoteFromJsonLd dp data = Except.ok (some note) →
      note.createdAt = recoverTimestamp dp data) := by
  refine ⟨?_, ?_, ?_, ?_⟩
  · intro h
    unfold recoverTimestamp
    rw [if_pos h]
  · intro h1 h2
    unfold recoverTimestamp
    rw [if_neg (by simp [h1]), if_pos h2]
  · intro h1 h2
    unfold recoverTimestamp
    rw [if_neg (by simp [h1]), if_neg (by simp [h2])]
  · intro note hok
    obtain ⟨t, s, hn, _, _⟩ := extract_ok_some hok
    rw [hn]

/-- Witness for C2 at a concrete object carrying only a parseable
`dateCreated`. -/
theorem c2_timestamp_precedence_witness :
    recoverTimestamp (fun z => if z = "D" then some 7 else none)
      (JsonVal.obj [("dateCreated", JsonVal.str "D"), ("text", JsonVal.str "x")]) = some 7 := by
  rw [(c2_timestamp_precedence (fun z => if z = "D" then some 7 else none)
    (JsonVal.obj [("dateCreated", JsonVal.str "D"), ("text", JsonVal.str "x")]) rfl).1 rfl]
  decide

/-- Counterexample to C2 as stated: with `dateCreated` present but
unparseable and `dateModified` present and parseable, the claim says the
emitted timestamp equals the parsed `dateModified`, but the code leaves it
unset (`dateModified` is never consulted once `dateCreated` is truthy). -/
theorem c2_unparseable_dateCreated_blocks_dateModified :
    jsNewDate (fun z => if z = "G" then some 42 else none)
      (jsGetD (JsonVal.obj [("dateCreated", JsonVal.str "bad"), ("dateModified", JsonVal.str "G")])
        "dateCreated") = none ∧
    jsNewDate (fun z => if z = "G" then some 42 else none)
      (jsGetD (JsonVal.obj [("dateCreated", JsonVal.str "bad"), ("dateModified", JsonVal.str "G")])
        "dateModified") = some 42 ∧
    recoverTimestamp (fun z => if z = "G" then some 42 else none)
      (JsonVal.obj [("dateCreated", JsonVal.str "bad"), ("dateModified", JsonVal.str "G")])
      ≠ some 42 := by
  refine ⟨by decide, by decide, by decide⟩

/-- C4 (amended): when the working object carries an array-typed
`itemListElement` and a note is emitted, the note's content is the
newline-join of exactly one rendered line per item, in item order — each
line `"☑ <text>"` or `"☐ <text>"` by the item's checked flag, text from
`text` falling back to `name` — with the whole joined string trimmed
(which can drop trailing whitespace of the final line). -/
theorem c4_checklist_rendering (dp : String → Option Int) (data : JsonVal)
    (items : List JsonVal) (note : ParsedNote)
    (hitems : jsGetD data "itemListElement" = JsonVal.arr items)
    (hok : extractNoteFromJsonLd dp data = Except.ok (some note)) :
    ∃ lines : List String,
      renderItems items = Except.ok lines ∧
      lines.length = items.length ∧
      note.content = jsTrimS (String.intercalate "\n" lines) ∧
      ∀ (i : Nat) (item : JsonVal), items[i]? = some item →
        lines[i]? = some ((if isTrueVal (jsGetD item "checked") then "☑" else "☐") ++ " " ++
          jsToString (jsOr (jsGetD item "text") (jsOr (jsGetD item "name") (JsonVal.str "")))) := by
  obtain ⟨t, s, hn, hc, hne⟩ := extract_ok_some hok
  simp only [jsonLdContent, hitems] at hc
  cases hr : renderItems items with
  | error e => rw [hr] at hc; exact Except.noConfusion hc
  | ok lines =>
    rw [hr] at hc
    replace hc : Except.ok (JsonVal.str (String.intercalate "\n" lines))
        = Except.ok (JsonVal.str s) := hc
    have hs : String.intercalate "\n" lines = s := JsonVal.str.inj (Except.ok.inj hc)
    obtain ⟨hlen, hget⟩ := renderItems_ok hr
    refine ⟨lines, rfl, hlen, ?_, hget⟩
    rw [hn]
    dsimp only
    rw [hs]

/-- Witness for C4 at a concrete two-item checklist (one checked item with
`text`, one unchecked item falling back to `name`). -/
theorem c4_checklist_rendering_witness :
    ∃ lines : List String,
      renderItems [JsonVal.obj [("text", JsonVal.str "milk"), ("checked", JsonVal.bool true)],
          JsonVal.obj [("name", JsonVal.str "eggs")]] = Except.ok lines ∧
      lines.length = [JsonVal.obj [("text", JsonVal.str "milk"), ("checked", JsonVal.bool true)],
          JsonVal.obj [("name", JsonVal.str "eggs")]].length ∧
      (ParsedNote.mk "" "☑ milk\n☐ eggs" none).content
        = jsTrimS (String.intercalate "\n" lines) ∧
      ∀ (i : Nat) (item : JsonVal),
        [JsonVal.obj [("text", JsonVal.str "milk"), ("checked", JsonVal.bool true)],
          JsonVal.obj [("name", JsonVal.str "eggs")]][i]? = some item →
        lines[i]? = some ((if isTrueVal (jsGetD item "checked") then "☑" else "☐") ++ " " ++
          jsToString (jsOr (jsGetD item "text") (jsOr (jsGetD item "name") (JsonVal.str "")))) :=
  c4_checklist_rendering (fun _ => none)
    (JsonVal.obj [("itemListElement",
      JsonVal.arr [JsonVal.obj [("text", JsonVal.str "milk"), ("checked", JsonVal.bool true)],
        JsonVal.obj [("name", JsonVal.str "eggs")]])])
    [JsonVal.obj [("text", JsonVal.str "milk"), ("checked", JsonVal.bool true)],
      JsonVal.obj [("name", JsonVal.str "eggs")]]
    ⟨"", "☑ milk\n☐ eggs", none⟩ rfl rfl

/-- Counterexample to C4 as stated: a one-item checklist whose item has no
text.  The claim's line for the item is "☐ " (checkbox, space, empty
text), but the emitted content is the trimmed "☐" — the trailing space of
the final line is lost, so the content is not exactly the k joined lines. -/
theorem c4_trailing_space_trimmed :
    extractNoteFromJsonLd (fun _ => none)
        (JsonVal.obj [("itemListElement", JsonVal.arr [JsonVal.obj []])])
      = Except.ok (some ⟨"", "☐", none⟩) ∧
    renderItems [(JsonVal.obj [] : JsonVal)] = Except.ok ["☐ "] ∧
    (ParsedNote.mk "" "☐" none).content ≠ String.intercalate "\n" ["☐ "] :=
  ⟨rfl, rfl, by decide⟩

/-- C10: a checklist item renders as checked exactly when its `checked`
field is present and is exactly the boolean `true`; any other value of the
field (absent, `null`, the string "true", the number 1, or any other
non-boolean value) renders it unchecked. -/
theorem c10_checked_strict_true (item : JsonVal) (h : item ≠ JsonVal.null) :
    renderItem item = Except.ok
      ((if isTrueVal (jsGetD item "checked") then "☑" else "☐") ++ " " ++
        jsToString (jsOr (jsGetD item "text") (jsOr (jsGetD item "name") (JsonVal.str "")))) ∧
    (isTrueVal (jsGetD item "checked") = true ↔
      jsGet item "checked" = some (JsonVal.bool true)) := by
  constructor
  · cases item with
    | null => exact absurd rfl h
    | bool b => rfl
    | num n => rfl
    | str s => rfl
    | arr elems => rfl
    | obj fields => rfl
  · cases hg : jsGet item "checked" with
    | none => simp [jsGetD, hg, isTrueVal]
    | some v =>
      cases v with
      | bool b => cases b <;> simp [jsGetD, hg, isTrueVal]
      | null => simp [jsGetD, hg, isTrueVal]
      | num n => simp [jsGetD, hg, isTrueVal]
      | str s => simp [jsGetD, hg, isTrueVal]
      | arr elems => simp [jsGetD, hg, isTrueVal]
      | obj fields => simp [jsGetD, hg, isTrueVal]

/-- Witness for C10 at a concrete item whose `checked` field is the
truthy string "true": the item still renders unchecked. -/
theorem c10_checked_strict_true_witness :
    renderItem (JsonVal.obj [("checked", JsonVal.str "true"), ("text", JsonVal.str "a")])
      = Except.ok "☐ a" ∧
    isTrueVal (jsGetD (JsonVal.obj [("checked", JsonVal.str "true"), ("text", JsonVal.str "a")])
      "checked") ≠ true := by
  constructor
  · rw [(c10_checked_strict_true
      (JsonVal.obj [("checked", JsonVal.str "true"), ("text", JsonVal.str "a")])
      (fun hh => JsonVal.noConfusion hh)).1]
    rfl
  · intro hh
    have h2 := (c10_checked_strict_true
      (JsonVal.obj [("checked", JsonVal.str "true"), ("text", JsonVal.str "a")])
      (fun hh2 => JsonVal.noConfusion hh2)).2.1 hh
    have h3 : jsGet (JsonVal.obj [("checked", JsonVal.str "true"), ("text", JsonVal.str "a")])
        "checked" = some (JsonVal.str "true") := rfl
    rw [h3] at h2
    exact JsonVal.noConfusion (Option.some.inj h2)
